import Mathlib

/-!
Verification of the unfair-flips streak game.

The game state machine, reward function and driver live in `src/main.rs`;
the upgrade table and `can_upgrade` live in `src/upgrades.rs`.  The Rust
code works with `f64`; we embed the numeric fields as exact rationals `ℚ`
(all constants in the program are exact decimals) and model the random
source `fastrand::f64()` as an explicit stream `rands : ℕ → ℚ` of draws,
indexed by the number of flips performed so far, so that the `i`-th flip
of a run consumes `rands i`.
-/

/-- The state of one game, mirroring `struct Game` in `src/main.rs`. -/
structure Game where
  p_heads : ℚ
  flip_time : ℚ
  total_time : ℚ
  n_flips : ℕ
  n_heads_in_a_row : ℕ
  coin_val : ℚ
  multiplier : ℚ
  cash : ℚ
deriving DecidableEq, Repr

/-- `Game::new`: the fixed initial state (`p_heads = 0.3`, `flip_time = 2.0`,
`coin_val = 0.01`, `multiplier = 1.0`, everything else zero). -/
def Game.new : Game :=
  { p_heads := 3 / 10
    flip_time := 2
    total_time := 0
    n_flips := 0
    n_heads_in_a_row := 0
    coin_val := 1 / 100
    multiplier := 1
    cash := 0 }

/-- `Game::calc_reward`: `multiplier.powi((n_heads_in_a_row as i32) - 1).ceil() * coin_value`. -/
def Game.calc_reward (coin_value multiplier : ℚ) (n_heads_in_a_row : ℕ) : ℚ :=
  (⌈multiplier ^ ((n_heads_in_a_row : ℤ) - 1)⌉ : ℚ) * coin_value

/-- `Game::flip` with the random draw made explicit: advance `total_time` by
`flip_time`, increment `n_flips`, then branch on `rand < p_heads`: on heads
increment the streak and add `calc_reward` of the incremented streak to
`cash`; on tails reset the streak to 0. -/
def Game.flip (g : Game) (rand : ℚ) : Game :=
  let g1 := { g with total_time := g.total_time + g.flip_time, n_flips := g.n_flips + 1 }
  if rand < g1.p_heads then
    { g1 with
      n_heads_in_a_row := g1.n_heads_in_a_row + 1
      cash := g1.cash + Game.calc_reward g1.coin_val g1.multiplier (g1.n_heads_in_a_row + 1) }
  else
    { g1 with n_heads_in_a_row := 0 }

/-- `Game::play`: loop at most `max_iters` times; before each flip, if
`n_heads_in_a_row >= n_win` return `Some` of the current state; otherwise
flip (consuming draw number `n_flips` of the stream).  Falling off the end
of the loop returns `None`. -/
def Game.play (rands : ℕ → ℚ) (n_win : ℕ) : ℕ → Game → Option Game
  | 0, _ => none
  | max_iters + 1, g =>
    if n_win ≤ g.n_heads_in_a_row then some g
    else Game.play rands n_win max_iters (g.flip (rands g.n_flips))

/-- The state after `i` flips of `g`, each consuming the draw indexed by the
current `n_flips` — exactly the states a run of `flip`s visits. -/
def Game.runFlips (rands : ℕ → ℚ) (g : Game) : ℕ → Game
  | 0 => g
  | i + 1 => (Game.runFlips rands g i).flip (rands (Game.runFlips rands g i).n_flips)

/-- The `match` in `main` (src/main.rs lines 142-156): a finished game
records its `n_flips`; an abandoned game records the sentinel `max_iters`. -/
def recordResult (res : Option Game) (max_iters : ℕ) : ℕ :=
  match res with
  | some g => g.n_flips
  | none => max_iters

/-- `struct PHeadsUpgradeState` from `src/upgrades.rs`. -/
structure PHeadsUpgradeState where
  p_heads_idx : ℕ
deriving DecidableEq, Repr

/-- `struct PHeadsUpgrade`: one (probability, cost) tier. -/
structure PHeadsUpgrade where
  prob : ℚ
  cost : ℚ
deriving DecidableEq, Repr

/-- `static PHEADS_UPGRADES`: the fixed 9-tier upgrade table. -/
def PHEADS_UPGRADES : List PHeadsUpgrade :=
  [ { prob := 20 / 100, cost := 0 }
  , { prob := 25 / 100, cost := 1 / 100 }
  , { prob := 30 / 100, cost := 10 / 100 }
  , { prob := 35 / 100, cost := 1 }
  , { prob := 40 / 100, cost := 10 }
  , { prob := 45 / 100, cost := 100 }
  , { prob := 50 / 100, cost := 1000 }
  , { prob := 55 / 100, cost := 10000 }
  , { prob := 60 / 100, cost := 100000 } ]

/-- `PHeadsUpgradeState::can_upgrade`: `p_heads_idx < PHEADS_UPGRADES.len() - 1`. -/
def PHeadsUpgradeState.can_upgrade (s : PHeadsUpgradeState) : Bool :=
  s.p_heads_idx < PHEADS_UPGRADES.length - 1

/-! ## Basic facts about `flip` (shared helper lemmas) -/

theorem Game.flip_total_time (g : Game) (r : ℚ) :
    (g.flip r).total_time = g.total_time + g.flip_time := by
  simp only [Game.flip]; split <;> rfl

theorem Game.flip_n_flips (g : Game) (r : ℚ) : (g.flip r).n_flips = g.n_flips + 1 := by
  simp only [Game.flip]; split <;> rfl

theorem Game.flip_flip_time (g : Game) (r : ℚ) : (g.flip r).flip_time = g.flip_time := by
  simp only [Game.flip]; split <;> rfl

theorem Game.flip_p_heads (g : Game) (r : ℚ) : (g.flip r).p_heads = g.p_heads := by
  simp only [Game.flip]; split <;> rfl

theorem Game.flip_coin_val (g : Game) (r : ℚ) : (g.flip r).coin_val = g.coin_val := by
  simp only [Game.flip]; split <;> rfl

theorem Game.flip_multiplier (g : Game) (r : ℚ) : (g.flip r).multiplier = g.multiplier := by
  simp only [Game.flip]; split <;> rfl

theorem Game.flip_heads (g : Game) (r : ℚ) (h : r < g.p_heads) :
    (g.flip r).n_heads_in_a_row = g.n_heads_in_a_row + 1 ∧
      (g.flip r).cash =
        g.cash + Game.calc_reward g.coin_val g.multiplier (g.n_heads_in_a_row + 1) := by
  simp only [Game.flip]
  rw [if_pos h]
  exact ⟨rfl, rfl⟩

theorem Game.flip_tails (g : Game) (r : ℚ) (h : ¬r < g.p_heads) :
    (g.flip r).n_heads_in_a_row = 0 ∧ (g.flip r).cash = g.cash := by
  simp only [Game.flip]
  rw [if_neg h]
  exact ⟨rfl, rfl⟩

/-! ## Unfolding lemmas for `runFlips` and `play` -/

theorem Game.runFlips_zero (rands : ℕ → ℚ) (g : Game) : Game.runFlips rands g 0 = g := rfl

theorem Game.runFlips_succ (rands : ℕ → ℚ) (g : Game) (i : ℕ) :
    Game.runFlips rands g (i + 1) =
      (Game.runFlips rands g i).flip (rands (Game.runFlips rands g i).n_flips) := rfl

theorem Game.play_zero (rands : ℕ → ℚ) (n_win : ℕ) (g : Game) :
    Game.play rands n_win 0 g = none := rfl

theorem Game.play_succ (rands : ℕ → ℚ) (n_win k : ℕ) (g : Game) :
    Game.play rands n_win (k + 1) g =
      if n_win ≤ g.n_heads_in_a_row then some g
      else Game.play rands n_win k (g.flip (rands g.n_flips)) := rfl

/-- Running `i + 1` flips from `g` is one flip followed by `i` flips: the
draw stream is indexed by `n_flips`, so no reindexing is needed. -/
theorem Game.runFlips_shift (rands : ℕ → ℚ) (g : Game) (i : ℕ) :
    Game.runFlips rands g (i + 1) =
      Game.runFlips rands (g.flip (rands g.n_flips)) i := by
  induction i with
  | zero => rfl
  | succ i ih =>
    rw [Game.runFlips_succ rands g (i + 1), ih, ← Game.runFlips_succ]

theorem Game.runFlips_n_flips (rands : ℕ → ℚ) (g : Game) (i : ℕ) :
    (Game.runFlips rands g i).n_flips = g.n_flips + i := by
  induction i with
  | zero => rfl
  | succ i ih => rw [Game.runFlips_succ, Game.flip_n_flips, ih]; omega

theorem Game.runFlips_flip_time (rands : ℕ → ℚ) (g : Game) (i : ℕ) :
    (Game.runFlips rands g i).flip_time = g.flip_time := by
  induction i with
  | zero => rfl
  | succ i ih => rw [Game.runFlips_succ, Game.flip_flip_time, ih]

theorem Game.runFlips_coin_val (rands : ℕ → ℚ) (g : Game) (i : ℕ) :
    (Game.runFlips rands g i).coin_val = g.coin_val := by
  induction i with
  | zero => rfl
  | succ i ih => rw [Game.runFlips_succ, Game.flip_coin_val, ih]

theorem Game.runFlips_multiplier (rands : ℕ → ℚ) (g : Game) (i : ℕ) :
    (Game.runFlips rands g i).multiplier = g.multiplier := by
  induction i with
  | zero => rfl
  | succ i ih => rw [Game.runFlips_succ, Game.flip_multiplier, ih]

theorem Game.runFlips_p_heads (rands : ℕ → ℚ) (g : Game) (i : ℕ) :
    (Game.runFlips rands g i).p_heads = g.p_heads := by
  induction i with
  | zero => rfl
  | succ i ih => rw [Game.runFlips_succ, Game.flip_p_heads, ih]

/-! ## Driver helper lemmas -/

/-- Any state `play` returns has had at most `fuel - 1` flips added. -/
theorem Game.play_n_flips_lt (rands : ℕ → ℚ) (n_win : ℕ) :
    ∀ (fuel : ℕ) (g g' : Game),
      Game.play rands n_win fuel g = some g' → g'.n_flips < g.n_flips + fuel := by
  intro fuel
  induction fuel with
  | zero => intro g g' h; exact absurd h (by rw [Game.play_zero]; exact fun h => Option.noConfusion h)
  | succ k ih =>
    intro g g' h
    rw [Game.play_succ] at h
    by_cases hc : n_win ≤ g.n_heads_in_a_row
    · rw [if_pos hc] at h
      injection h with h
      subst h
      omega
    · rw [if_neg hc] at h
      have hlt := ih (g.flip (rands g.n_flips)) g' h
      rw [Game.flip_n_flips] at hlt
      omega

/-- If the win check fails at every state the loop visits, `play` exhausts
its fuel and returns `none`. -/
theorem Game.play_none_of_no_win (rands : ℕ → ℚ) (n_win : ℕ) :
    ∀ (fuel : ℕ) (g : Game),
      (∀ i, i < fuel → (Game.runFlips rands g i).n_heads_in_a_row < n_win) →
      Game.play rands n_win fuel g = none := by
  intro fuel
  induction fuel with
  | zero => intro g _; rfl
  | succ k ih =>
    intro g h
    rw [Game.play_succ, if_neg]
    · apply ih
      intro i hi
      have hs := h (i + 1) (by omega)
      rw [Game.runFlips_shift] at hs
      exact hs
    · have h0 := h 0 (by omega)
      rw [Game.runFlips_zero] at h0
      omega

/-- If the win check first succeeds after exactly `t` flips and the fuel
allows reaching it, `play` returns the state after `t` flips, unchanged. -/
theorem Game.play_first_win (rands : ℕ → ℚ) (n_win : ℕ) :
    ∀ (t fuel : ℕ) (g : Game), t < fuel →
      (∀ i, i < t → (Game.runFlips rands g i).n_heads_in_a_row < n_win) →
      n_win ≤ (Game.runFlips rands g t).n_heads_in_a_row →
      Game.play rands n_win fuel g = some (Game.runFlips rands g t) := by
  intro t
  induction t with
  | zero =>
    intro fuel g ht _ hge
    obtain ⟨k, rfl⟩ : ∃ k, fuel = k + 1 := ⟨fuel - 1, by omega⟩
    rw [Game.runFlips_zero] at hge ⊢
    rw [Game.play_succ, if_pos hge]
  | succ t ih =>
    intro fuel g ht hlt hge
    obtain ⟨k, rfl⟩ : ∃ k, fuel = k + 1 := ⟨fuel - 1, by omega⟩
    rw [Game.play_succ, if_neg]
    · rw [Game.runFlips_shift]
      apply ih k (g.flip (rands g.n_flips)) (by omega)
      · intro i hi
        have hs := hlt (i + 1) (by omega)
        rw [Game.runFlips_shift] at hs
        exact hs
      · rw [← Game.runFlips_shift]
        exact hge
    · have h0 := hlt 0 (by omega)
      rw [Game.runFlips_zero] at h0
      omega

/-! ## Reward-model helper lemmas -/

/-- With multiplier 1 every reward is the bare coin value. -/
theorem Game.calc_reward_one_mult (c : ℚ) (n : ℕ) : Game.calc_reward c 1 n = c := by
  unfold Game.calc_reward
  rw [one_zpow, Int.ceil_one]
  norm_num

/-- For a state whose coin value and multiplier are still the initial ones
(`coin_val = 0.01`, `multiplier = 1`), a flip adds exactly `0.01` to `cash`
on heads and leaves it unchanged on tails. -/
theorem Game.flip_cash_spec (g : Game) (hcv : g.coin_val = 1 / 100)
    (hm : g.multiplier = 1) (r : ℚ) :
    g.cash ≤ (g.flip r).cash ∧ ((g.flip r).cash = g.cash ↔ ¬r < g.p_heads) := by
  by_cases h : r < g.p_heads
  · obtain ⟨-, hcash⟩ := Game.flip_heads g r h
    rw [hcash, hcv, hm, Game.calc_reward_one_mult]
    refine ⟨by linarith, ?_, fun hn => absurd h hn⟩
    intro he
    exfalso
    linarith
  · obtain ⟨-, hcash⟩ := Game.flip_tails g r h
    rw [hcash]
    exact ⟨le_refl _, by simp [h]⟩

/-! ## The claims -/

/-- C1: `calc_reward` returns `coin_value` for a streak of 1, and
`ceil(multiplier ^ (streak - 1)) * coin_value` for longer streaks, with the
ceiling taken before multiplying by the coin value; concretely
`reward(1, 3, 3) = 9`, `reward(0.25, 2.5, 3) = 1.75` and
`reward(1, 1, 5) = 1`. -/
theorem calc_reward_contract :
    (∀ c m : ℚ, Game.calc_reward c m 1 = c) ∧
    (∀ (c m : ℚ) (n : ℕ), 1 < n →
      Game.calc_reward c m n = (⌈m ^ ((n : ℤ) - 1)⌉ : ℚ) * c) ∧
    Game.calc_reward 1 3 3 = 9 ∧
    Game.calc_reward (1 / 4) (5 / 2) 3 = 7 / 4 ∧
    Game.calc_reward 1 1 5 = 1 := by
  refine ⟨?_, fun c m n _ => rfl, ?_, ?_, ?_⟩
  · intro c m
    unfold Game.calc_reward
    norm_num
  · norm_num [Game.calc_reward]
  · unfold Game.calc_reward
    have h2 : ((3 : ℕ) : ℤ) - 1 = 2 := by norm_num
    rw [h2]
    have hp : (5 / 2 : ℚ) ^ (2 : ℤ) = 25 / 4 := by norm_num
    rw [hp]
    have hc : ⌈(25 / 4 : ℚ)⌉ = 7 := by
      rw [Int.ceil_eq_iff]
      norm_num
    rw [hc]
    norm_num
  · norm_num [Game.calc_reward]

/-- Witness for C1 at `c = 1`, `m = 3`, `n = 3`. -/
theorem calc_reward_contract_witness :
    1 < 3 ∧ Game.calc_reward 1 3 3 = (⌈(3 : ℚ) ^ (((3 : ℕ) : ℤ) - 1)⌉ : ℚ) * 1 :=
  ⟨by decide, calc_reward_contract.2.1 1 3 3 (by decide)⟩

/-- C2: a single flip advances `total_time` by `flip_time`, increments
`n_flips` by exactly 1, and then, depending on whether the draw is below
`p_heads`, either increments the streak and adds the reward of the new
streak length to `cash`, or resets the streak to 0 leaving `cash`
unchanged. -/
theorem flip_transition (g : Game) (rand : ℚ) :
    (g.flip rand).total_time = g.total_time + g.flip_time ∧
    (g.flip rand).n_flips = g.n_flips + 1 ∧
    (if rand < g.p_heads then
        (g.flip rand).n_heads_in_a_row = g.n_heads_in_a_row + 1 ∧
          (g.flip rand).cash =
            g.cash + Game.calc_reward g.coin_val g.multiplier (g.n_heads_in_a_row + 1)
      else (g.flip rand).n_heads_in_a_row = 0 ∧ (g.flip rand).cash = g.cash) := by
  refine ⟨Game.flip_total_time g rand, Game.flip_n_flips g rand, ?_⟩
  by_cases h : rand < g.p_heads
  · rw [if_pos h]
    exact Game.flip_heads g rand h
  · rw [if_neg h]
    exact Game.flip_tails g rand h

/-- C3: when the streak already meets the target, `play` (given a positive
iteration budget, as the spec requires of `max_flips`) stops before
flipping and returns the current state unchanged. -/
theorem play_won_snapshot (g : Game) (n_win max_iters : ℕ) (rands : ℕ → ℚ)
    (hiters : 0 < max_iters) (hwin : n_win ≤ g.n_heads_in_a_row) :
    Game.play rands n_win max_iters g = some g := by
  obtain ⟨k, rfl⟩ : ∃ k, max_iters = k + 1 := ⟨max_iters - 1, by omega⟩
  rw [Game.play_succ, if_pos hwin]

/-- Witness for C3 at the fresh game with `n_win = 0`, `max_iters = 1`. -/
theorem play_won_snapshot_witness :
    0 < 1 ∧ 0 ≤ Game.new.n_heads_in_a_row ∧
      Game.play (fun _ => 0) 0 1 Game.new = some Game.new :=
  ⟨by decide, by decide, play_won_snapshot Game.new 0 1 (fun _ => 0) (by decide) (by decide)⟩

/-- C4: when the win check fails at every state a capped run visits, `play`
returns `none`, the caller records the sentinel `max_iters`; and a
completed run records a value different from that sentinel, so the caller
can always distinguish abandonment from completion. -/
theorem play_abandoned_encoding (n_win max_iters : ℕ) (rands : ℕ → ℚ) :
    ((∀ i, i < max_iters → (Game.runFlips rands Game.new i).n_heads_in_a_row < n_win) →
      Game.play rands n_win max_iters Game.new = none ∧
        recordResult (Game.play rands n_win max_iters Game.new) max_iters = max_iters) ∧
    (∀ g', Game.play rands n_win max_iters Game.new = some g' →
      recordResult (some g') max_iters ≠ max_iters) := by
  constructor
  · intro h
    have hn := Game.play_none_of_no_win rands n_win max_iters Game.new h
    exact ⟨hn, by rw [hn]; rfl⟩
  · intro g' h
    have hlt := Game.play_n_flips_lt rands n_win max_iters Game.new g' h
    have h0 : Game.new.n_flips = 0 := rfl
    simp only [recordResult]
    omega

/-- Witness for C4: a two-iteration all-tails run is abandoned and recorded
as the sentinel. -/
theorem play_abandoned_encoding_witness :
    Game.play (fun _ => 1) 1 2 Game.new = none ∧
      recordResult (Game.play (fun _ => 1) 1 2 Game.new) 2 = 2 := by
  apply (play_abandoned_encoding 1 2 (fun _ => 1)).1
  intro i hi
  interval_cases i
  · rw [Game.runFlips_zero]
    decide
  · rw [Game.runFlips_succ, Game.runFlips_zero,
      (Game.flip_tails Game.new _ (by norm_num [Game.new])).1]
    decide

/-- C5: at every observation point of a run started from `Game.new` and
advanced only by `flip`, `total_time = n_flips * flip_time`. -/
theorem total_time_invariant (rands : ℕ → ℚ) (i : ℕ) :
    (Game.runFlips rands Game.new i).total_time =
      ((Game.runFlips rands Game.new i).n_flips : ℚ) *
        (Game.runFlips rands Game.new i).flip_time := by
  induction i with
  | zero => norm_num [Game.runFlips_zero, Game.new]
  | succ i ih =>
    rw [Game.runFlips_succ, Game.flip_total_time, Game.flip_n_flips, Game.flip_flip_time, ih]
    push_cast
    ring

/-- C6: along any run from `Game.new`, `cash` never decreases across a
flip, and it stays exactly equal precisely on a tails outcome. -/
theorem cash_increase_iff_heads (rands : ℕ → ℚ) (i : ℕ) (r : ℚ) :
    (Game.runFlips rands Game.new i).cash ≤ ((Game.runFlips rands Game.new i).flip r).cash ∧
      (((Game.runFlips rands Game.new i).flip r).cash = (Game.runFlips rands Game.new i).cash ↔
        ¬r < (Game.runFlips rands Game.new i).p_heads) := by
  apply Game.flip_cash_spec
  · rw [Game.runFlips_coin_val]
    rfl
  · rw [Game.runFlips_multiplier]
    rfl

/-- C7: with `p_heads = 1` every draw in `[0,1)` is heads, so a game with
target streak `k` (and a cap large enough to allow `k` flips) finishes as
`Some` of a state with exactly `k` flips and a streak of `k`. -/
theorem play_all_heads_wins (k max_iters : ℕ) (rands : ℕ → ℚ)
    (hcap : k < max_iters) (_hr0 : ∀ i, 0 ≤ rands i) (hr1 : ∀ i, rands i < 1) :
    ∃ g', Game.play rands k max_iters { Game.new with p_heads := 1 } = some g' ∧
      g'.n_flips = k ∧ g'.n_heads_in_a_row = k := by
  have hstreak : ∀ i,
      (Game.runFlips rands { Game.new with p_heads := 1 } i).n_heads_in_a_row = i := by
    intro i
    induction i with
    | zero => rfl
    | succ i ih =>
      have hph : (Game.runFlips rands { Game.new with p_heads := 1 } i).p_heads = 1 := by
        rw [Game.runFlips_p_heads]
      rw [Game.runFlips_succ, (Game.flip_heads _ _ (by rw [hph]; exact hr1 _)).1, ih]
  refine ⟨Game.runFlips rands { Game.new with p_heads := 1 } k, ?_, ?_, hstreak k⟩
  · apply Game.play_first_win rands k k max_iters _ hcap
    · intro i hi
      rw [hstreak]
      exact hi
    · rw [hstreak]
  · rw [Game.runFlips_n_flips]
    have h0 : ({ Game.new with p_heads := 1 } : Game).n_flips = 0 := rfl
    omega

/-- Witness for C7 at `k = 1`, `max_iters = 2`, all draws 0. -/
theorem play_all_heads_wins_witness :
    ∃ g', Game.play (fun _ => 0) 1 2 { Game.new with p_heads := 1 } = some g' ∧
      g'.n_flips = 1 ∧ g'.n_heads_in_a_row = 1 :=
  play_all_heads_wins 1 2 (fun _ => 0) (by decide) (fun _ => le_refl 0) (fun _ => by norm_num)

/-- C8 counterexample: with a negative coin value (allowed by the claim's
unrestricted "for every c") the reward strictly decreases from streak 1 to
streak 2 even though the multiplier is at least 1. -/
theorem calc_reward_not_monotone :
    (1 : ℚ) ≤ 2 ∧ (1 : ℕ) ≤ 1 ∧ (1 : ℕ) ≤ 2 ∧
      Game.calc_reward (-1) 2 2 < Game.calc_reward (-1) 2 1 := by
  norm_num [Game.calc_reward]

/-- C8 amended: for a non-negative coin value `c` and multiplier `m ≥ 1`,
`calc_reward c m n` is non-decreasing in the streak length `n ≥ 1`. -/
theorem calc_reward_monotone (c m : ℚ) (hc : 0 ≤ c) (hm : 1 ≤ m)
    (n n' : ℕ) (hn : 1 ≤ n) (hnn : n ≤ n') :
    Game.calc_reward c m n ≤ Game.calc_reward c m n' := by
  unfold Game.calc_reward
  apply mul_le_mul_of_nonneg_right _ hc
  have hle : m ^ ((n : ℤ) - 1) ≤ m ^ ((n' : ℤ) - 1) :=
    zpow_le_zpow_right₀ hm (by omega)
  exact_mod_cast Int.ceil_le_ceil hle

/-- Witness for the amended C8 at `c = 1`, `m = 2`, `n = 1`, `n' = 2`. -/
theorem calc_reward_monotone_witness :
    (0 : ℚ) ≤ 1 ∧ (1 : ℚ) ≤ 2 ∧ (1 : ℕ) ≤ 1 ∧ (1 : ℕ) ≤ 2 ∧
      Game.calc_reward 1 2 1 ≤ Game.calc_reward 1 2 2 :=
  ⟨by norm_num, by norm_num, by decide, by decide,
    calc_reward_monotone 1 2 (by norm_num) (by norm_num) 1 2 (by decide) (by decide)⟩

/-- C9: `can_upgrade` is pure and total, holds exactly when the active tier
index is not the last index of the fixed 9-entry table, and concretely is
true for indices 0 through 7 and false for index 8. -/
theorem can_upgrade_spec :
    (∀ s : PHeadsUpgradeState, s.p_heads_idx < PHEADS_UPGRADES.length →
      (s.can_upgrade = true ↔ s.p_heads_idx ≠ PHEADS_UPGRADES.length - 1)) ∧
    (∀ i : ℕ, i < 8 → PHeadsUpgradeState.can_upgrade ⟨i⟩ = true) ∧
    PHeadsUpgradeState.can_upgrade ⟨8⟩ = false := by
  refine ⟨?_, ?_, by decide⟩
  · intro s hs
    have h9 : PHEADS_UPGRADES.length = 9 := rfl
    rw [h9] at hs
    unfold PHeadsUpgradeState.can_upgrade
    rw [h9]
    simp only [decide_eq_true_eq]
    omega
  · intro i hi
    unfold PHeadsUpgradeState.can_upgrade
    simp only [decide_eq_true_eq]
    have h9 : PHEADS_UPGRADES.length = 9 := rfl
    rw [h9]
    omega

/-- Witness for C9 at tier index 0. -/
theorem can_upgrade_spec_witness :
    PHeadsUpgradeState.p_heads_idx ⟨0⟩ < PHEADS_UPGRADES.length ∧
      (PHeadsUpgradeState.can_upgrade ⟨0⟩ = true ↔
        PHeadsUpgradeState.p_heads_idx ⟨0⟩ ≠ PHEADS_UPGRADES.length - 1) :=
  ⟨by decide, can_upgrade_spec.1 ⟨0⟩ (by decide)⟩

/-- C10: a run started from `Game.new` that `play` returns as `Some` has
strictly fewer than `max_iters` flips, so a won game never collides with
the abandonment sentinel; and a run whose streak stays below the target at
every checked state within the cap comes back as `None`. -/
theorem play_won_flips_lt_cap (n_win max_iters : ℕ) (rands : ℕ → ℚ) :
    (∀ g', Game.play rands n_win max_iters Game.new = some g' → g'.n_flips < max_iters) ∧
    ((∀ i, i < max_iters → (Game.runFlips rands Game.new i).n_heads_in_a_row < n_win) →
      Game.play rands n_win max_iters Game.new = none) := by
  constructor
  · intro g' h
    have hlt := Game.play_n_flips_lt rands n_win max_iters Game.new g' h
    have h0 : Game.new.n_flips = 0 := rfl
    omega
  · exact Game.play_none_of_no_win rands n_win max_iters Game.new

/-- Witness for C10: an immediately-won run has fewer flips than the cap. -/
theorem play_won_flips_lt_cap_witness :
    Game.play (fun _ => 0) 0 1 Game.new = some Game.new ∧ Game.new.n_flips < 1 := by
  have hplay : Game.play (fun _ => 0) 0 1 Game.new = some Game.new := by
    rw [Game.play_succ, if_pos (by decide : 0 ≤ Game.new.n_heads_in_a_row)]
  exact ⟨hplay, (play_won_flips_lt_cap 0 1 (fun _ => 0)).1 Game.new hplay⟩
